import Mathlib

/-!
Verification of the dir-merge comparison engine.

Shallow embedding of the sources `file.py`, `comparison.py` and
`comparison_manager.py`.  Python `File` objects are modelled as records
carrying an `id` field for object identity (`is`), the bytes of the file on
disk as `content`, and the memoized hash fields as `Option Nat` (a hex
digest string is never empty, so Python's `if not self.quick_hash` test is
exactly `Option.isNone`).  The md5 and sha256 digests are abstract digest
functions `List Nat → Nat` passed as parameters; the source only ever
compares digests for equality.  Python exceptions are modelled with
`Except`.  Components of the repository that are not part of the given
sources (`dir_index.py`, `comparison_index.py`, `cli.py`) are modelled from
the specification and marked as such in their doc comments.
-/

namespace DirMerge

/-- Embedding of `Comparison.CompType` (comparison.py, lines 5-24): the
closed taxonomy of comparison outcomes. -/
inductive CompType where
  | MATCH
  | PATH_NAME_DUP
  | CONTENT_NAME_DUP
  | CONTENT_PATH_DUP
  | NAME_DUP
  | CONTENT_DUP
  | PATH_DUP
  | UNIQUE
deriving DecidableEq, Repr

/-- The `value` of each enum member: the (path, name, content) boolean
triple from comparison.py. -/
def CompType.traits : CompType → Bool × Bool × Bool
  | .MATCH => (true, true, true)
  | .PATH_NAME_DUP => (true, true, false)
  | .CONTENT_NAME_DUP => (false, true, true)
  | .CONTENT_PATH_DUP => (true, false, true)
  | .NAME_DUP => (false, true, false)
  | .CONTENT_DUP => (false, false, true)
  | .PATH_DUP => (true, false, false)
  | .UNIQUE => (false, false, false)

/-- Iteration order of `for comp_type in CompType` (Python enum definition
order). -/
def compTypeList : List CompType :=
  [.MATCH, .PATH_NAME_DUP, .CONTENT_NAME_DUP, .CONTENT_PATH_DUP,
   .NAME_DUP, .CONTENT_DUP, .PATH_DUP, .UNIQUE]

/-- The loop test in `File.compare_to` (file.py, lines 65-69):
`traits["path"] == same_path and traits["name"] == same_name and
traits["content"] == same_content`. -/
def traitsMatch (ct : CompType) (p n c : Bool) : Bool :=
  ct.traits.1 == p && ct.traits.2.1 == n && ct.traits.2.2 == c

/-- The `for comp_type in CompType` search of `File.compare_to`:
first member of the enumeration whose traits match the computed triple. -/
def findCompType (p n c : Bool) : Option CompType :=
  compTypeList.find? (fun ct => traitsMatch ct p n c)

/-- The unique category of a trait triple, read off the taxonomy table. -/
def classify (p n c : Bool) : CompType :=
  match p, n, c with
  | true, true, true => .MATCH
  | true, true, false => .PATH_NAME_DUP
  | false, true, true => .CONTENT_NAME_DUP
  | true, false, true => .CONTENT_PATH_DUP
  | false, true, false => .NAME_DUP
  | false, false, true => .CONTENT_DUP
  | true, false, false => .PATH_DUP
  | false, false, false => .UNIQUE

/-- Embedding of `File` (file.py, lines 9-17).  `id` models CPython object
identity (`is`); `parent` models `rel_path.parent`; `content` is the byte
sequence at `abs_path` on disk; `quick_hash`/`full_hash` start as `None`
in `__init__` and are memoized on demand. -/
structure File where
  id : Nat
  name : String
  parent : String
  size : Nat
  content : List Nat
  quick_hash : Option Nat
  full_hash : Option Nat
deriving DecidableEq, Repr

/-- `File.__create_quick_hash` (file.py, lines 107-110): md5 digest of the
first 4096 bytes. -/
def createQuickHash (md5 : List Nat → Nat) (f : File) : Nat :=
  md5 (f.content.take 4096)

/-- `File.__create_full_hash` (file.py, lines 112-117): sha256 digest of the
whole content (streamed in 8192-byte chunks, which hashes exactly the whole
content). -/
def createFullHash (sha256 : List Nat → Nat) (f : File) : Nat :=
  sha256 f.content

/-- The memoizing fill `if not self.quick_hash: self.quick_hash =
self.__create_quick_hash()` (file.py, lines 90-93). -/
def fillQuick (md5 : List Nat → Nat) (f : File) : File :=
  if f.quick_hash.isNone then { f with quick_hash := some (createQuickHash md5 f) } else f

/-- The memoizing fill `if not self.full_hash: self.full_hash =
self.__create_full_hash()` (file.py, lines 98-101). -/
def fillFull (sha256 : List Nat → Nat) (f : File) : File :=
  if f.full_hash.isNone then { f with full_hash := some (createFullHash sha256 f) } else f

/-- Embedding of `File.compare_content` (file.py, lines 84-105).  In Python
the two descriptors are mutated in place; here the updated descriptors are
returned alongside the boolean verdict. -/
def compare_content (md5 sha256 : List Nat → Nat) (f g : File) : Bool × File × File :=
  if f.size ≠ g.size then (false, f, g)
  else
    let f1 := fillQuick md5 f
    let g1 := fillQuick md5 g
    if f1.quick_hash ≠ g1.quick_hash then (false, f1, g1)
    else
      let f2 := fillFull sha256 f1
      let g2 := fillFull sha256 g1
      if f2.full_hash ≠ g2.full_hash then (false, f2, g2)
      else (f2.full_hash == g2.full_hash, f2, g2)

/-- `same_name = self.name == other.name` (file.py, line 57). -/
def sameName (f g : File) : Bool :=
  f.name == g.name

/-- `same_path = self.rel_path.parent == other.rel_path.parent`
(file.py, line 58). -/
def samePath (f g : File) : Bool :=
  f.parent == g.parent

/-- Embedding of `Comparison` (comparison.py, lines 26-31). -/
structure Comparison where
  fileA : File
  fileB : File
  comp_type : CompType
deriving DecidableEq, Repr

/-- The two `raise ValueError` exits of `File.compare_to`:
self-comparison (line 54) and the internal-consistency branch (line 80). -/
inductive CompErr where
  | selfCompare
  | noCompType
deriving DecidableEq, Repr

/-- Embedding of `File.compare_to` (file.py, lines 52-82).  Returns the
optional comparison outcome (PATH_DUP is suppressed to `none`, lines 72-76)
together with the updated descriptors. -/
def compare_to (md5 sha256 : List Nat → Nat) (self other : File) :
    Except CompErr (Option Comparison × File × File) :=
  if self.id = other.id then .error .selfCompare
  else
    let same_name := sameName self other
    let same_path := samePath self other
    let r := compare_content md5 sha256 self other
    match findCompType same_path same_name r.1 with
    | some ct =>
      if ct = CompType.PATH_DUP then .ok (none, r.2.1, r.2.2)
      else .ok (some ⟨r.2.1, r.2.2, ct⟩, r.2.1, r.2.2)
    | none => .error .noCompType

/-! Helper lemmas about the comparator. -/

theorem beqComm {α : Type} [BEq α] [LawfulBEq α] (a b : α) : (a == b) = (b == a) := by
  by_cases h : a = b
  · subst h; rfl
  · have h1 : (a == b) = false := by simp [h]
    have h2 : (b == a) = false := by simp [Ne.symm h]
    rw [h1, h2]

/-- The enumeration search always finds exactly the category read off the
taxonomy table. -/
theorem findCompType_eq : ∀ p n c : Bool, findCompType p n c = some (classify p n c) := by
  decide

theorem fillQuick_size (md5 : List Nat → Nat) (f : File) : (fillQuick md5 f).size = f.size := by
  unfold fillQuick; split <;> rfl

theorem fillQuick_full (md5 : List Nat → Nat) (f : File) :
    (fillQuick md5 f).full_hash = f.full_hash := by
  unfold fillQuick; split <;> rfl

theorem fillQuick_isSome (md5 : List Nat → Nat) (f : File) :
    (fillQuick md5 f).quick_hash.isSome := by
  unfold fillQuick
  split
  · rfl
  · rename_i h
    rw [Option.isSome_iff_ne_none]
    simpa using h

theorem fillFull_quick (sha256 : List Nat → Nat) (f : File) :
    (fillFull sha256 f).quick_hash = f.quick_hash := by
  unfold fillFull; split <;> rfl

theorem fillFull_size (sha256 : List Nat → Nat) (f : File) : (fillFull sha256 f).size = f.size := by
  unfold fillFull; split <;> rfl

theorem fillFull_isSome (sha256 : List Nat → Nat) (f : File) :
    (fillFull sha256 f).full_hash.isSome := by
  unfold fillFull
  split
  · rfl
  · rename_i h
    rw [Option.isSome_iff_ne_none]
    simpa using h

theorem fillQuick_of_isSome (md5 : List Nat → Nat) (f : File) (h : f.quick_hash.isSome) :
    fillQuick md5 f = f := by
  have hne : ¬ f.quick_hash.isNone = true := by
    simp only [Option.isNone_iff_eq_none]
    exact Option.isSome_iff_ne_none.mp h
  unfold fillQuick
  rw [if_neg hne]

theorem fillFull_of_isSome (sha256 : List Nat → Nat) (f : File) (h : f.full_hash.isSome) :
    fillFull sha256 f = f := by
  have hne : ¬ f.full_hash.isNone = true := by
    simp only [Option.isNone_iff_eq_none]
    exact Option.isSome_iff_ne_none.mp h
  unfold fillFull
  rw [if_neg hne]

theorem fillQuick_quick_of_some (md5 : List Nat → Nat) (f : File) (h : Nat)
    (hq : f.quick_hash = some h) : (fillQuick md5 f).quick_hash = some h := by
  rw [fillQuick_of_isSome md5 f (by rw [hq]; rfl)]
  exact hq

theorem fillFull_full_of_some (sha256 : List Nat → Nat) (f : File) (h : Nat)
    (hf : f.full_hash = some h) : (fillFull sha256 f).full_hash = some h := by
  rw [fillFull_of_isSome sha256 f (by rw [hf]; rfl)]
  exact hf

/-! Equations computing `compare_content` in each of its four exit paths. -/

theorem compare_content_eq_of_size_ne (md5 sha256 : List Nat → Nat) (f g : File)
    (hs : f.size ≠ g.size) : compare_content md5 sha256 f g = (false, f, g) := by
  unfold compare_content
  rw [if_pos hs]

theorem compare_content_eq_of_quick_ne (md5 sha256 : List Nat → Nat) (f g : File)
    (hs : f.size = g.size)
    (hq : (fillQuick md5 f).quick_hash ≠ (fillQuick md5 g).quick_hash) :
    compare_content md5 sha256 f g = (false, fillQuick md5 f, fillQuick md5 g) := by
  unfold compare_content
  rw [if_neg (by simp [hs]), if_pos hq]

theorem compare_content_eq_of_full_ne (md5 sha256 : List Nat → Nat) (f g : File)
    (hs : f.size = g.size)
    (hq : (fillQuick md5 f).quick_hash = (fillQuick md5 g).quick_hash)
    (hf : (fillFull sha256 (fillQuick md5 f)).full_hash
      ≠ (fillFull sha256 (fillQuick md5 g)).full_hash) :
    compare_content md5 sha256 f g =
      (false, fillFull sha256 (fillQuick md5 f), fillFull sha256 (fillQuick md5 g)) := by
  unfold compare_content
  rw [if_neg (by simp [hs]), if_neg (by simp [hq]), if_pos hf]

theorem compare_content_eq_of_full_eq (md5 sha256 : List Nat → Nat) (f g : File)
    (hs : f.size = g.size)
    (hq : (fillQuick md5 f).quick_hash = (fillQuick md5 g).quick_hash)
    (hf : (fillFull sha256 (fillQuick md5 f)).full_hash
      = (fillFull sha256 (fillQuick md5 g)).full_hash) :
    compare_content md5 sha256 f g =
      (true, fillFull sha256 (fillQuick md5 f), fillFull sha256 (fillQuick md5 g)) := by
  unfold compare_content
  rw [if_neg (by simp [hs]), if_neg (by simp [hq]), if_neg (by simp [hf])]
  simp [hf]

/-- Running `compare_content` a second time on the updated descriptors
changes nothing: every memoized fingerprint is reused and the verdict is
reproduced. -/
theorem compare_content_idem (md5 sha256 : List Nat → Nat) (f g : File) :
    compare_content md5 sha256 (compare_content md5 sha256 f g).2.1
      (compare_content md5 sha256 f g).2.2 = compare_content md5 sha256 f g := by
  by_cases hs : f.size = g.size
  · by_cases hq : (fillQuick md5 f).quick_hash = (fillQuick md5 g).quick_hash
    · have hfq : fillQuick md5 (fillFull sha256 (fillQuick md5 f))
          = fillFull sha256 (fillQuick md5 f) :=
        fillQuick_of_isSome md5 _ (by rw [fillFull_quick]; exact fillQuick_isSome md5 f)
      have hgq : fillQuick md5 (fillFull sha256 (fillQuick md5 g))
          = fillFull sha256 (fillQuick md5 g) :=
        fillQuick_of_isSome md5 _ (by rw [fillFull_quick]; exact fillQuick_isSome md5 g)
      have hff : fillFull sha256 (fillFull sha256 (fillQuick md5 f))
          = fillFull sha256 (fillQuick md5 f) :=
        fillFull_of_isSome sha256 _ (fillFull_isSome sha256 _)
      have hgf : fillFull sha256 (fillFull sha256 (fillQuick md5 g))
          = fillFull sha256 (fillQuick md5 g) :=
        fillFull_of_isSome sha256 _ (fillFull_isSome sha256 _)
      have hs2 : (fillFull sha256 (fillQuick md5 f)).size
          = (fillFull sha256 (fillQuick md5 g)).size := by
        rw [fillFull_size, fillFull_size, fillQuick_size, fillQuick_size]
        exact hs
      have hq2 : (fillFull sha256 (fillQuick md5 f)).quick_hash
          = (fillFull sha256 (fillQuick md5 g)).quick_hash := by
        rw [fillFull_quick, fillFull_quick]
        exact hq
      by_cases hf : (fillFull sha256 (fillQuick md5 f)).full_hash
          = (fillFull sha256 (fillQuick md5 g)).full_hash
      · rw [compare_content_eq_of_full_eq md5 sha256 f g hs hq hf]
        unfold compare_content
        rw [if_neg (by simp [hs2]), hfq, hgq, if_neg (by simp [hq2]), hff, hgf,
          if_neg (by simp [hf])]
        simp [hf]
      · rw [compare_content_eq_of_full_ne md5 sha256 f g hs hq hf]
        unfold compare_content
        rw [if_neg (by simp [hs2]), hfq, hgq, if_neg (by simp [hq2]), hff, hgf, if_pos hf]
    · rw [compare_content_eq_of_quick_ne md5 sha256 f g hs hq]
      have hfq : fillQuick md5 (fillQuick md5 f) = fillQuick md5 f :=
        fillQuick_of_isSome md5 _ (fillQuick_isSome md5 f)
      have hgq : fillQuick md5 (fillQuick md5 g) = fillQuick md5 g :=
        fillQuick_of_isSome md5 _ (fillQuick_isSome md5 g)
      have hs2 : (fillQuick md5 f).size = (fillQuick md5 g).size := by
        rw [fillQuick_size, fillQuick_size]
        exact hs
      unfold compare_content
      rw [if_neg (by simp [hs2]), hfq, hgq, if_pos hq]
  · rw [compare_content_eq_of_size_ne md5 sha256 f g hs]
    unfold compare_content
    rw [if_pos hs]

/-- The content verdict is a symmetric relation on descriptors. -/
theorem compare_content_symm (md5 sha256 : List Nat → Nat) (f g : File) :
    (compare_content md5 sha256 f g).1 = (compare_content md5 sha256 g f).1 := by
  by_cases hs : f.size = g.size
  · by_cases hq : (fillQuick md5 f).quick_hash = (fillQuick md5 g).quick_hash
    · by_cases hf : (fillFull sha256 (fillQuick md5 f)).full_hash
          = (fillFull sha256 (fillQuick md5 g)).full_hash
      · rw [compare_content_eq_of_full_eq md5 sha256 f g hs hq hf,
          compare_content_eq_of_full_eq md5 sha256 g f hs.symm hq.symm hf.symm]
      · rw [compare_content_eq_of_full_ne md5 sha256 f g hs hq hf,
          compare_content_eq_of_full_ne md5 sha256 g f hs.symm hq.symm
            (fun h => hf h.symm)]
    · rw [compare_content_eq_of_quick_ne md5 sha256 f g hs hq,
        compare_content_eq_of_quick_ne md5 sha256 g f hs.symm (fun h => hq h.symm)]
  · rw [compare_content_eq_of_size_ne md5 sha256 f g hs,
      compare_content_eq_of_size_ne md5 sha256 g f (fun h => hs h.symm)]

/-- Category (or suppression, or error) of a `compare_to` result, ignoring
the updated descriptors. -/
def outcomeCategory :
    Except CompErr (Option Comparison × File × File) → Except CompErr (Option CompType)
  | .error e => .error e
  | .ok (none, _, _) => .ok none
  | .ok (some c, _, _) => .ok (some c.comp_type)

/-! Concrete sample inputs used by witnesses and counterexamples. -/

/-- Sample digest standing in for md5 in concrete runs (the source only
compares digests for equality). -/
def exMd5 : List Nat → Nat := fun l => l.foldl (fun a b => a + b) 0

/-- Sample digest standing in for sha256 in concrete runs. -/
def exSha : List Nat → Nat := fun l => l.foldl (fun a b => a * 3 + b) 1

/-- Sample descriptor: name "a", folder "d1", one byte of content. -/
def exX : File := ⟨0, "a", "d1", 1, [1], none, none⟩

/-- Sample descriptor: same name and size as `exX`, different folder and
content. -/
def exY : File := ⟨1, "a", "d2", 1, [2], none, none⟩

/-- Sample descriptor whose size differs from `exX`. -/
def exW : File := ⟨2, "b", "d1", 5, [1, 2, 3, 4, 5], none, none⟩

/-- C1: for every pair of distinct File descriptors, the taxonomy search of
`compare_to` matches exactly one of the eight categories for the computed
(samePath, sameName, sameContent) triple, and `compare_to` returns that
outcome (or nothing exactly when the category is PATH_DUP); the final
internal-consistency error branch is unreachable. -/
theorem compare_to_exhaustive (md5 sha256 : List Nat → Nat) (f g : File)
    (hid : f.id ≠ g.id) :
    (∀ p n c : Bool, compTypeList.countP (fun ct => traitsMatch ct p n c) = 1) ∧
    ∃ out, compare_to md5 sha256 f g = Except.ok out ∧
      (out.1 = none ↔
        classify (samePath f g) (sameName f g) (compare_content md5 sha256 f g).1
          = CompType.PATH_DUP) ∧
      (∀ cmp, out.1 = some cmp →
        cmp.comp_type
          = classify (samePath f g) (sameName f g) (compare_content md5 sha256 f g).1) := by
  refine ⟨by decide, ?_⟩
  unfold compare_to
  rw [if_neg hid]
  simp only [findCompType_eq]
  by_cases hpd :
      classify (samePath f g) (sameName f g) (compare_content md5 sha256 f g).1
        = CompType.PATH_DUP
  · rw [if_pos hpd]
    exact ⟨_, rfl, by simp [hpd], by simp⟩
  · rw [if_neg hpd]
    refine ⟨_, rfl, by simp [hpd], ?_⟩
    intro cmp hc
    cases hc
    rfl

/-- Witness: `compare_to` on a concrete pair of distinct descriptors never
reaches the internal-consistency error. -/
theorem compare_to_exhaustive_witness :
    exX.id ≠ exY.id ∧ compare_to exMd5 exSha exX exY ≠ Except.error CompErr.noCompType := by
  refine ⟨by decide, ?_⟩
  obtain ⟨out, hout, -, -⟩ := (compare_to_exhaustive exMd5 exSha exX exY (by decide)).2
  rw [hout]
  exact fun h => Except.noConfusion h

/-- C2: `compare_content` implements short-circuit staged equality: unequal
sizes give false with both descriptors untouched (no hash computed); equal
sizes with unequal quick fingerprints give false with full fingerprints
untouched; otherwise the verdict is equality of the full fingerprints; and
a true verdict entails equal sizes, equal quick fingerprints and equal
(computed) full fingerprints. -/
theorem compare_content_staged (md5 sha256 : List Nat → Nat) (f g : File) :
    (f.size ≠ g.size → compare_content md5 sha256 f g = (false, f, g)) ∧
    (f.size = g.size → (fillQuick md5 f).quick_hash ≠ (fillQuick md5 g).quick_hash →
      compare_content md5 sha256 f g = (false, fillQuick md5 f, fillQuick md5 g)) ∧
    (f.size = g.size → (fillQuick md5 f).quick_hash = (fillQuick md5 g).quick_hash →
      (compare_content md5 sha256 f g).1 =
        ((fillFull sha256 (fillQuick md5 f)).full_hash
          == (fillFull sha256 (fillQuick md5 g)).full_hash)) ∧
    ((compare_content md5 sha256 f g).1 = true →
      f.size = g.size ∧
      (compare_content md5 sha256 f g).2.1.quick_hash
        = (compare_content md5 sha256 f g).2.2.quick_hash ∧
      (compare_content md5 sha256 f g).2.1.full_hash
        = (compare_content md5 sha256 f g).2.2.full_hash ∧
      (compare_content md5 sha256 f g).2.1.full_hash.isSome) := by
  by_cases hs : f.size = g.size
  · by_cases hq : (fillQuick md5 f).quick_hash = (fillQuick md5 g).quick_hash
    · by_cases hf :
          (fillFull sha256 (fillQuick md5 f)).full_hash
            = (fillFull sha256 (fillQuick md5 g)).full_hash
      · have hcc : compare_content md5 sha256 f g =
            (true, fillFull sha256 (fillQuick md5 f), fillFull sha256 (fillQuick md5 g)) := by
          unfold compare_content
          rw [if_neg (by simp [hs]), if_neg (by simp [hq]), if_neg (by simp [hf])]
          simp [hf]
        refine ⟨fun h => absurd hs h, fun _ h => absurd hq h, fun _ _ => ?_, fun _ => ?_⟩
        · rw [hcc]
          simp [hf]
        · rw [hcc]
          refine ⟨hs, ?_, hf, fillFull_isSome sha256 (fillQuick md5 f)⟩
          rw [fillFull_quick, fillFull_quick]
          exact hq
      · have hcc : compare_content md5 sha256 f g =
            (false, fillFull sha256 (fillQuick md5 f), fillFull sha256 (fillQuick md5 g)) := by
          unfold compare_content
          rw [if_neg (by simp [hs]), if_neg (by simp [hq]), if_pos hf]
        refine ⟨fun h => absurd hs h, fun _ h => absurd hq h, fun _ _ => ?_, fun h => ?_⟩
        · rw [hcc]
          exact (beq_eq_false_iff_ne.mpr hf).symm
        · rw [hcc] at h
          cases h
    · have hcc : compare_content md5 sha256 f g =
          (false, fillQuick md5 f, fillQuick md5 g) := by
        unfold compare_content
        rw [if_neg (by simp [hs]), if_pos hq]
      refine ⟨fun h => absurd hs h, fun _ _ => hcc, fun _ h => absurd h hq, fun h => ?_⟩
      rw [hcc] at h
      cases h
  · have hcc : compare_content md5 sha256 f g = (false, f, g) := by
      unfold compare_content
      rw [if_pos hs]
    refine ⟨fun _ => hcc, fun h => absurd h hs, fun h => absurd h hs, fun h => ?_⟩
    rw [hcc] at h
    cases h

/-- Witness: on a concrete pair with different sizes, `compare_content`
returns false and leaves both descriptors untouched. -/
theorem compare_content_staged_witness :
    exX.size ≠ exW.size ∧ compare_content exMd5 exSha exX exW = (false, exX, exW) :=
  ⟨by decide, (compare_content_staged exMd5 exSha exX exW).1 (by decide)⟩

/-- Sample descriptor with a pre-memoized quick fingerprint. -/
def exQ : File := ⟨3, "q", "d3", 1, [1], some 42, none⟩

/-- C8: fingerprints are memoized — a fingerprint already cached on a
descriptor is reused unchanged by `compare_content`; the full fingerprint
is filled in only when the two quick fingerprints have been found equal;
and rerunning `compare_content` on the updated descriptors recomputes
nothing and yields the identical verdict and fingerprints. -/
theorem fingerprints_memoized (md5 sha256 : List Nat → Nat) (f g : File) :
    (∀ h, f.quick_hash = some h →
      (compare_content md5 sha256 f g).2.1.quick_hash = some h) ∧
    (∀ h, g.quick_hash = some h →
      (compare_content md5 sha256 f g).2.2.quick_hash = some h) ∧
    (∀ h, f.full_hash = some h →
      (compare_content md5 sha256 f g).2.1.full_hash = some h) ∧
    (∀ h, g.full_hash = some h →
      (compare_content md5 sha256 f g).2.2.full_hash = some h) ∧
    (f.full_hash = none → (compare_content md5 sha256 f g).2.1.full_hash ≠ none →
      (compare_content md5 sha256 f g).2.1.quick_hash
        = (compare_content md5 sha256 f g).2.2.quick_hash) ∧
    (compare_content md5 sha256 (compare_content md5 sha256 f g).2.1
      (compare_content md5 sha256 f g).2.2 = compare_content md5 sha256 f g) := by
  refine ⟨?_, ?_, ?_, ?_, ?_, compare_content_idem md5 sha256 f g⟩
  all_goals by_cases hs : f.size = g.size
  case neg | neg | neg | neg | neg =>
    rw [compare_content_eq_of_size_ne md5 sha256 f g hs]
    first
    | exact fun h hq => hq
    | exact fun h1 h2 => absurd h1 h2
  all_goals by_cases hq : (fillQuick md5 f).quick_hash = (fillQuick md5 g).quick_hash
  case neg | neg | neg | neg | neg =>
    rw [compare_content_eq_of_quick_ne md5 sha256 f g hs hq]
    first
    | exact fun h hsome => fillQuick_quick_of_some md5 f h hsome
    | exact fun h hsome => fillQuick_quick_of_some md5 g h hsome
    | exact fun h hsome => by rw [fillQuick_full]; exact hsome
    | exact fun h1 h2 => absurd (by rw [fillQuick_full]; exact h1) h2
  all_goals by_cases hf : (fillFull sha256 (fillQuick md5 f)).full_hash
      = (fillFull sha256 (fillQuick md5 g)).full_hash
  case neg | neg | neg | neg | neg =>
    rw [compare_content_eq_of_full_ne md5 sha256 f g hs hq hf]
    first
    | exact fun h hsome => by rw [fillFull_quick]; exact fillQuick_quick_of_some md5 f h hsome
    | exact fun h hsome => by rw [fillFull_quick]; exact fillQuick_quick_of_some md5 g h hsome
    | exact fun h hsome => fillFull_full_of_some sha256 _ h (by rw [fillQuick_full]; exact hsome)
    | exact fun _ _ => by rw [fillFull_quick, fillFull_quick]; exact hq
  all_goals rw [compare_content_eq_of_full_eq md5 sha256 f g hs hq hf]
  · exact fun h hsome => by rw [fillFull_quick]; exact fillQuick_quick_of_some md5 f h hsome
  · exact fun h hsome => by rw [fillFull_quick]; exact fillQuick_quick_of_some md5 g h hsome
  · exact fun h hsome => fillFull_full_of_some sha256 _ h (by rw [fillQuick_full]; exact hsome)
  · exact fun h hsome => fillFull_full_of_some sha256 _ h (by rw [fillQuick_full]; exact hsome)
  · exact fun _ _ => by rw [fillFull_quick, fillFull_quick]; exact hq

/-- Witness: a pre-cached quick fingerprint on a concrete descriptor is
reused unchanged by `compare_content`. -/
theorem fingerprints_memoized_witness :
    exQ.quick_hash = some 42 ∧ (compare_content exMd5 exSha exQ exY).2.1.quick_hash = some 42 :=
  ⟨rfl, (fingerprints_memoized exMd5 exSha exQ exY).1 42 rfl⟩

/-- C9: classification is symmetric — for distinct descriptors,
`compare_to` in the two orders yields the same category, or nothing in
both orders. -/
theorem compare_to_symm (md5 sha256 : List Nat → Nat) (f g : File) (hid : f.id ≠ g.id) :
    outcomeCategory (compare_to md5 sha256 f g)
      = outcomeCategory (compare_to md5 sha256 g f) := by
  have hn : sameName g f = sameName f g := by
    unfold sameName
    exact beqComm _ _
  have hp : samePath g f = samePath f g := by
    unfold samePath
    exact beqComm _ _
  have hc : (compare_content md5 sha256 g f).1 = (compare_content md5 sha256 f g).1 :=
    (compare_content_symm md5 sha256 f g).symm
  unfold compare_to
  rw [if_neg hid, if_neg (fun h => hid h.symm)]
  simp only [hn, hp, hc, findCompType_eq]
  by_cases hpd :
      classify (samePath f g) (sameName f g) (compare_content md5 sha256 f g).1
        = CompType.PATH_DUP
  · rw [if_pos hpd, if_pos hpd]
    rfl
  · rw [if_neg hpd, if_neg hpd]
    rfl

/-- Witness: symmetry of classification at a concrete pair. -/
theorem compare_to_symm_witness :
    outcomeCategory (compare_to exMd5 exSha exX exY)
      = outcomeCategory (compare_to exMd5 exSha exY exX) :=
  compare_to_symm exMd5 exSha exX exY (by decide)

/-! Embedding of `comparison_manager.py`.  Descriptors are passed by value
here; in Python they are mutated in place by fingerprint memoization,
which by the memoization lemmas above never changes any verdict. -/

/-- A key of the Python dict `comparison_cache`, compared by object
identity.  Stored keys are pairs of `File` objects
`(comparison.fileA, comparison.fileB)`; the lookups in
`_compare_file_against_group` use the pair `(self, other_file)` whose
first component is the `ComparisonManager` object itself. -/
inductive Entity where
  | manager : Entity
  | file : Nat → Entity
deriving DecidableEq, BEq, Repr

/-- Key type of the comparison cache (keys are compared by identity, i.e.
by equality of this model type). -/
abbrev CacheKey : Type := Entity × Entity

/-- The `dict.get` lookup on the comparison cache. -/
def cacheGet (cache : List (CacheKey × Comparison)) (k : CacheKey) : Option Comparison :=
  (cache.find? (fun e => decide (e.1 = k))).map (fun e => e.2)

/-- The dict assignment `self.comparison_cache[key] = comparison`:
overwrite an existing entry or append a new one. -/
def cacheSet (cache : List (CacheKey × Comparison)) (k : CacheKey) (v : Comparison) :
    List (CacheKey × Comparison) :=
  if (cache.find? (fun e => decide (e.1 = k))).isSome then
    cache.map (fun e => if e.1 = k then (k, v) else e)
  else cache ++ [(k, v)]

/-- Modelled from the spec: the per-category `ComparisonIndex`
(`comparison_index.py` is not among the given sources).  Spec §3: one
bucket per category, holding the outcomes filed via `add_comparison` and
the files filed via `add_file`. -/
structure Bucket where
  comps : List Comparison
  files : List File
deriving DecidableEq, Repr

/-- A freshly constructed, empty index. -/
def Bucket.empty : Bucket := ⟨[], []⟩

/-- Embedding of the `ComparisonManager` state (comparison_manager.py,
lines 14-20): one index per category plus the pair cache. -/
structure ComparisonManager where
  buckets : CompType → Bucket
  comparison_cache : List (CacheKey × Comparison)

/-- `ComparisonManager.__init__`: empty buckets, empty cache. -/
def initManager : ComparisonManager := ⟨fun _ => Bucket.empty, []⟩

/-- The stored cache key of an outcome:
`(comparison.fileA, comparison.fileB)` (comparison_manager.py, line 83),
with object identity modelled by descriptor ids. -/
def pairKey (c : Comparison) : CacheKey :=
  (Entity.file c.fileA.id, Entity.file c.fileB.id)

/-- Modelled from the spec: the traversal collaborator `DirIndex`
(`dir_index.py` is not among the given sources).  Spec §6: it supplies the
descriptor list and the name and size indexes, built before any
comparison. -/
structure DirIndex where
  file_list : List File
  name_index : String → List File
  size_index : Nat → List File

/-- Embedding of `ComparisonManager._compare_file_against_group`
(comparison_manager.py, lines 67-78).  The guard reproduces the source:
self-comparison is skipped, and the two cache lookups are the same
expression `comparison_cache.get((self, other_file))`, keyed on the
manager object rather than on `file`. -/
def compareFileAgainstGroup (md5 sha256 : List Nat → Nat)
    (cache : List (CacheKey × Comparison)) (file : File) :
    List File → Except CompErr (List Comparison)
  | [] => .ok []
  | other :: rest =>
    if file.id ≠ other.id ∧
        cacheGet cache (Entity.manager, Entity.file other.id) = none ∧
        cacheGet cache (Entity.manager, Entity.file other.id) = none then
      match compare_to md5 sha256 file other with
      | .error e => .error e
      | .ok (some c, _, _) =>
        (compareFileAgainstGroup md5 sha256 cache file rest).map (fun cs => c :: cs)
      | .ok (none, _, _) => compareFileAgainstGroup md5 sha256 cache file rest
    else compareFileAgainstGroup md5 sha256 cache file rest

/-- One iteration of the loop in `ComparisonManager._add_comparisons`
(comparison_manager.py, lines 82-86): cache the outcome; if it is not
UNIQUE, file it into its category's index (`add_comparison` modelled from
the spec as appending to the bucket) and set the flag. -/
def addComparisonStep (acc : ComparisonManager × Bool) (c : Comparison) :
    ComparisonManager × Bool :=
  let m1 : ComparisonManager :=
    { acc.1 with comparison_cache := cacheSet acc.1.comparison_cache (pairKey c) c }
  if c.comp_type ≠ CompType.UNIQUE then
    ({ m1 with buckets := fun t =>
        if t = c.comp_type then
          { m1.buckets t with comps := (m1.buckets t).comps ++ [c] }
        else m1.buckets t }, true)
  else (m1, acc.2)

/-- Embedding of `ComparisonManager._add_comparisons` (comparison_manager.py,
lines 80-87). -/
def addComparisons (m : ComparisonManager) (cs : List Comparison) :
    ComparisonManager × Bool :=
  cs.foldl addComparisonStep (m, false)

/-- The call `self.comparisons[CompType.UNIQUE].add_file(file)`
(comparison_manager.py, line 65); `add_file` modelled from the spec as
recording the file in the UNIQUE bucket. -/
def addFile (m : ComparisonManager) (f : File) : ComparisonManager :=
  { m with buckets := fun t =>
      if t = CompType.UNIQUE then
        { m.buckets t with files := (m.buckets t).files ++ [f] }
      else m.buckets t }

/-- One iteration of the loop in `ComparisonManager.add_dir_index`
(comparison_manager.py, lines 44-65): compare against the name group, then
against the size group, and mark the file UNIQUE when neither pass added a
non-UNIQUE outcome. -/
def processFile (md5 sha256 : List Nat → Nat) (dirIx : DirIndex)
    (m : ComparisonManager) (f : File) : Except CompErr ComparisonManager :=
  match compareFileAgainstGroup md5 sha256 m.comparison_cache f (dirIx.name_index f.name) with
  | .error e => .error e
  | .ok ncs =>
    let r1 := addComparisons m ncs
    match compareFileAgainstGroup md5 sha256 r1.1.comparison_cache f
        (dirIx.size_index f.size) with
    | .error e => .error e
    | .ok scs =>
      let r2 := addComparisons r1.1 scs
      if r1.2 = false ∧ r2.2 = false then .ok (addFile r2.1 f) else .ok r2.1

/-- Embedding of the loop of `ComparisonManager.add_dir_index`
(comparison_manager.py, lines 43-65). -/
def addDirIndexAux (md5 sha256 : List Nat → Nat) (dirIx : DirIndex) :
    ComparisonManager → List File → Except CompErr ComparisonManager
  | m, [] => .ok m
  | m, f :: fs =>
    match processFile md5 sha256 dirIx m f with
    | .error e => .error e
    | .ok m1 => addDirIndexAux md5 sha256 dirIx m1 fs

/-- Embedding of `ComparisonManager.add_dir_index`. -/
def addDirIndex (md5 sha256 : List Nat → Nat) (m : ComparisonManager) (dirIx : DirIndex) :
    Except CompErr ComparisonManager :=
  addDirIndexAux md5 sha256 dirIx m dirIx.file_list

/-! Resolution.  The interactive collaborator `cli` is not among the given
sources; its calls are recorded as events, and `prompt_keep_options` is a
parameter `chooser` (spec §6: the only interface call whose return value
affects engine state). -/

/-- Calls made to the interactive collaborator during resolution. -/
inductive Event where
  | displayFiles (t : CompType) (files : List File)
  | promptBuildDiff (files : List File)
  | promptKeep (files : List File)
deriving DecidableEq, Repr

/-- Modelled from the spec: `ComparisonIndex.set_comparisons(kept)` on a
group removes every group member not in the kept subset (§4.3). -/
def setComparisons (g kept : List File) : List File :=
  g.filter (fun x => kept.any (fun k => k.id == x.id))

/-- Modelled from the spec: `ComparisonIndex.remove_comparisons(file)`
discards the file from the bucket (§4.3: removal updates the owning bucket
so a discarded file is not re-offered). -/
def removeFile (g : List File) (f : File) : List File :=
  g.filter (fun x => !(x.id == f.id))

/-- The subscript `dup_list[0]` / `matches[0]`; groups held by an index are
nonempty in the source. -/
def headFile (g : List File) : File :=
  g.headD ⟨0, "", "", 0, [], none, none⟩

/-- One iteration of the first loop of `ComparisonManager.resolve_dups`
(comparison_manager.py, lines 122-133): display the group, offer a diff
when the category's content trait is false, prompt for the kept subset; an
empty choice queues the group head for removal, otherwise the kept subset
replaces the group. -/
def resolveDupStep (chooser : List File → List File) (t : CompType)
    (acc : List (List File) × List File × List Event) (g : List File) :
    List (List File) × List File × List Event :=
  let evs := acc.2.2 ++ [Event.displayFiles t g]
    ++ (if t.traits.2.2 = false then [Event.promptBuildDiff g] else [])
    ++ [Event.promptKeep g]
  let choice := chooser g
  if choice.length = 0 then (acc.1 ++ [g], acc.2.1 ++ [headFile g], evs)
  else (acc.1 ++ [setComparisons g choice], acc.2.1, evs)

/-- Embedding of `ComparisonManager.resolve_dups` (comparison_manager.py,
lines 119-136): the first loop gathers the user's decisions, the second
loop removes each queued file from the whole index. -/
def resolve_dups (chooser : List File → List File) (t : CompType)
    (groups : List (List File)) : List (List File) × List Event :=
  let r := groups.foldl (resolveDupStep chooser t) ([], [], [])
  (r.1.map (fun g => r.2.1.foldl removeFile g), r.2.2)

/-- Embedding of `ComparisonManager.resolve_matches` (comparison_manager.py,
lines 109-117): for each MATCH group keep only the first member via
`set_comparisons(matches[0])`; no interactive call is made. -/
def resolve_matches (groups : List (List File)) : List (List File) × List Event :=
  (groups.map (fun g => setComparisons g [headFile g]), [])

/-- Embedding of `ComparisonManager.resolve_all` (comparison_manager.py,
lines 100-107): categories in enumeration order; MATCH by
`resolve_matches`, UNIQUE skipped, every other category by `resolve_dups`. -/
def resolve_all (chooser : List File → List File)
    (bs : CompType → List (List File)) :
    List (CompType × (List (List File) × List Event)) :=
  compTypeList.map (fun t =>
    if t = CompType.MATCH then (t, resolve_matches (bs t))
    else if t = CompType.UNIQUE then (t, (bs t, []))
    else (t, resolve_dups chooser t (bs t)))

/-- Modelled from the spec: the groups view of a bucket handed to
resolution (§3: grouping key, "e.g. shared name, or the pair itself"): each
filed outcome contributes its pair, each filed file a singleton group. -/
def Bucket.groups (b : Bucket) : List (List File) :=
  b.comps.map (fun c => [c.fileA, c.fileB]) ++ b.files.map (fun f => [f])

/-! Lemmas about the cache and the bucket updates. -/

/-- Whether the cache holds an entry under the given key. -/
def cacheHasKey (cache : List (CacheKey × Comparison)) (k : CacheKey) : Bool :=
  (cache.find? (fun e => decide (e.1 = k))).isSome

theorem cacheHasKey_iff (cache : List (CacheKey × Comparison)) (k : CacheKey) :
    cacheHasKey cache k = true ↔ ∃ e ∈ cache, e.1 = k := by
  unfold cacheHasKey
  rw [List.find?_isSome]
  simp

theorem cacheSet_hasKey_self (cache : List (CacheKey × Comparison)) (k : CacheKey)
    (v : Comparison) : cacheHasKey (cacheSet cache k v) k = true := by
  unfold cacheSet
  split
  · rename_i h
    rw [cacheHasKey_iff]
    obtain ⟨e, he, hpe⟩ := List.find?_isSome.mp h
    rw [decide_eq_true_eq] at hpe
    refine ⟨if e.1 = k then (k, v) else e, List.mem_map_of_mem _ he, ?_⟩
    rw [if_pos hpe]
  · rw [cacheHasKey_iff]
    exact ⟨(k, v), List.mem_append_right _ (List.mem_singleton.mpr rfl), rfl⟩

theorem cacheSet_hasKey_mono (cache : List (CacheKey × Comparison)) (k k' : CacheKey)
    (v : Comparison) (h : cacheHasKey cache k = true) :
    cacheHasKey (cacheSet cache k' v) k = true := by
  rw [cacheHasKey_iff] at h
  obtain ⟨e, he, hpe⟩ := h
  unfold cacheSet
  split
  · rw [cacheHasKey_iff]
    refine ⟨if e.1 = k' then (k', v) else e, List.mem_map_of_mem _ he, ?_⟩
    by_cases hk : e.1 = k'
    · rw [if_pos hk]
      exact hk ▸ hpe
    · rw [if_neg hk]
      exact hpe
  · rw [cacheHasKey_iff]
    exact ⟨e, List.mem_append_left _ he, hpe⟩

theorem addComparisonStep_cache (acc : ComparisonManager × Bool) (c : Comparison) :
    (addComparisonStep acc c).1.comparison_cache
      = cacheSet acc.1.comparison_cache (pairKey c) c := by
  unfold addComparisonStep
  split <;> rfl

theorem addComparisonStep_flag (acc : ComparisonManager × Bool) (c : Comparison) :
    (addComparisonStep acc c).2 = (acc.2 || !(c.comp_type == CompType.UNIQUE)) := by
  unfold addComparisonStep
  split
  · rename_i h
    simp [h]
  · rename_i h
    rw [not_not] at h
    simp [h]

theorem addComparisonStep_comps_mono (acc : ComparisonManager × Bool) (c : Comparison)
    (t : CompType) (x : Comparison) (hx : x ∈ (acc.1.buckets t).comps) :
    x ∈ ((addComparisonStep acc c).1.buckets t).comps := by
  unfold addComparisonStep
  split
  · dsimp only
    by_cases ht : t = c.comp_type
    · subst ht
      rw [if_pos rfl]
      exact List.mem_append_left _ hx
    · rw [if_neg ht]
      exact hx
  · exact hx

theorem addComparisonStep_comps_self (acc : ComparisonManager × Bool) (c : Comparison)
    (h : c.comp_type ≠ CompType.UNIQUE) :
    c ∈ ((addComparisonStep acc c).1.buckets c.comp_type).comps := by
  unfold addComparisonStep
  rw [if_pos h]
  dsimp only
  rw [if_pos rfl]
  simp

theorem addComparisonStep_comps_ne (acc : ComparisonManager × Bool) (c : Comparison)
    (t : CompType) (h : c.comp_type ≠ t) :
    ((addComparisonStep acc c).1.buckets t).comps = (acc.1.buckets t).comps := by
  unfold addComparisonStep
  split
  · dsimp only
    rw [if_neg (Ne.symm h)]
  · rfl

theorem addComparisonStep_unique_comps (acc : ComparisonManager × Bool) (c : Comparison) :
    ((addComparisonStep acc c).1.buckets CompType.UNIQUE).comps
      = (acc.1.buckets CompType.UNIQUE).comps := by
  unfold addComparisonStep
  split
  · rename_i h
    dsimp only
    rw [if_neg (Ne.symm h)]
  · rfl

theorem addComparisonStep_files (acc : ComparisonManager × Bool) (c : Comparison)
    (t : CompType) :
    ((addComparisonStep acc c).1.buckets t).files = (acc.1.buckets t).files := by
  unfold addComparisonStep
  split
  · dsimp only
    by_cases ht : t = c.comp_type
    · subst ht
      rw [if_pos rfl]
    · rw [if_neg ht]
  · rfl

theorem addComparisons_foldl_cache (cs : List Comparison) :
    ∀ acc : ComparisonManager × Bool,
      (∀ k, cacheHasKey acc.1.comparison_cache k = true →
        cacheHasKey (cs.foldl addComparisonStep acc).1.comparison_cache k = true) ∧
      (∀ c ∈ cs,
        cacheHasKey (cs.foldl addComparisonStep acc).1.comparison_cache (pairKey c) = true) := by
  induction cs with
  | nil =>
    intro acc
    exact ⟨fun k h => h, fun c hc => absurd hc (List.not_mem_nil c)⟩
  | cons c cs ih =>
    intro acc
    rw [List.foldl_cons]
    refine ⟨?_, ?_⟩
    · intro k hk
      refine (ih _).1 k ?_
      rw [addComparisonStep_cache]
      exact cacheSet_hasKey_mono _ _ _ _ hk
    · intro c' hc'
      rcases List.mem_cons.mp hc' with h | h
      · subst h
        refine (ih _).1 (pairKey c') ?_
        rw [addComparisonStep_cache]
        exact cacheSet_hasKey_self _ _ _
      · exact (ih _).2 c' h

theorem addComparisons_foldl_comps_mono (cs : List Comparison) :
    ∀ (acc : ComparisonManager × Bool) (t : CompType) (x : Comparison),
      x ∈ (acc.1.buckets t).comps →
      x ∈ ((cs.foldl addComparisonStep acc).1.buckets t).comps := by
  induction cs with
  | nil => exact fun acc t x hx => hx
  | cons c cs ih =>
    intro acc t x hx
    rw [List.foldl_cons]
    exact ih _ t x (addComparisonStep_comps_mono acc c t x hx)

theorem addComparisons_foldl_comps_self (cs : List Comparison) :
    ∀ acc : ComparisonManager × Bool, ∀ c ∈ cs, c.comp_type ≠ CompType.UNIQUE →
      c ∈ ((cs.foldl addComparisonStep acc).1.buckets c.comp_type).comps := by
  induction cs with
  | nil => exact fun acc c hc => absurd hc (List.not_mem_nil c)
  | cons c cs ih =>
    intro acc c' hc' hne
    rw [List.foldl_cons]
    rcases List.mem_cons.mp hc' with h | h
    · subst h
      exact addComparisons_foldl_comps_mono cs _ _ c'
        (addComparisonStep_comps_self acc c' hne)
    · exact ih _ c' h hne

theorem addComparisons_foldl_comps_ne (cs : List Comparison) :
    ∀ (acc : ComparisonManager × Bool) (t : CompType), (∀ c ∈ cs, c.comp_type ≠ t) →
      ((cs.foldl addComparisonStep acc).1.buckets t).comps = (acc.1.buckets t).comps := by
  induction cs with
  | nil => exact fun acc t _ => rfl
  | cons c cs ih =>
    intro acc t h
    rw [List.foldl_cons, ih _ t (fun c' hc' => h c' (List.mem_cons_of_mem c hc')),
      addComparisonStep_comps_ne acc c t (h c (List.mem_cons_self c cs))]

theorem addComparisons_foldl_unique_comps (cs : List Comparison) :
    ∀ acc : ComparisonManager × Bool,
      ((cs.foldl addComparisonStep acc).1.buckets CompType.UNIQUE).comps
        = (acc.1.buckets CompType.UNIQUE).comps := by
  induction cs with
  | nil => exact fun acc => rfl
  | cons c cs ih =>
    intro acc
    rw [List.foldl_cons, ih _, addComparisonStep_unique_comps acc c]

theorem addComparisons_foldl_files (cs : List Comparison) :
    ∀ (acc : ComparisonManager × Bool) (t : CompType),
      ((cs.foldl addComparisonStep acc).1.buckets t).files = (acc.1.buckets t).files := by
  induction cs with
  | nil => exact fun acc t => rfl
  | cons c cs ih =>
    intro acc t
    rw [List.foldl_cons, ih _ t, addComparisonStep_files acc c t]

theorem addComparisons_foldl_flag (cs : List Comparison) :
    ∀ acc : ComparisonManager × Bool,
      (cs.foldl addComparisonStep acc).2
        = (acc.2 || cs.any (fun c => !(c.comp_type == CompType.UNIQUE))) := by
  induction cs with
  | nil => intro acc; simp
  | cons c cs ih =>
    intro acc
    rw [List.foldl_cons, ih _, addComparisonStep_flag acc c]
    simp [Bool.or_assoc]

theorem addFile_cache (m : ComparisonManager) (f : File) :
    (addFile m f).comparison_cache = m.comparison_cache := rfl

theorem addFile_comps (m : ComparisonManager) (f : File) (t : CompType) :
    ((addFile m f).buckets t).comps = (m.buckets t).comps := by
  unfold addFile
  dsimp only
  by_cases h : t = CompType.UNIQUE
  · subst h
    rw [if_pos rfl]
  · rw [if_neg h]

theorem addFile_files_unique (m : ComparisonManager) (f : File) :
    ((addFile m f).buckets CompType.UNIQUE).files
      = (m.buckets CompType.UNIQUE).files ++ [f] := by
  unfold addFile
  simp

theorem addFile_files_ne (m : ComparisonManager) (f : File) (t : CompType)
    (h : t ≠ CompType.UNIQUE) :
    ((addFile m f).buckets t).files = (m.buckets t).files := by
  unfold addFile
  dsimp only
  rw [if_neg h]

/-- A `compare_to` outcome is never filed with category PATH_DUP: that row
is suppressed to `None` before the return. -/
theorem compare_to_comp_type (md5 sha256 : List Nat → Nat) (f g : File)
    (c : Comparison) (f' g' : File)
    (h : compare_to md5 sha256 f g = .ok (some c, f', g')) :
    c.comp_type ≠ CompType.PATH_DUP := by
  unfold compare_to at h
  by_cases hid : f.id = g.id
  · rw [if_pos hid] at h
    simp at h
  · rw [if_neg hid] at h
    simp only [findCompType_eq] at h
    by_cases hpd :
        classify (samePath f g) (sameName f g) (compare_content md5 sha256 f g).1
          = CompType.PATH_DUP
    · rw [if_pos hpd] at h
      simp at h
    · rw [if_neg hpd] at h
      simp only [Except.ok.injEq, Prod.mk.injEq, Option.some.injEq] at h
      obtain ⟨h1, -⟩ := h
      rw [← h1]
      exact hpd

/-- No outcome produced by a group pass has category PATH_DUP. -/
theorem compareFileAgainstGroup_no_pathdup (md5 sha256 : List Nat → Nat)
    (cache : List (CacheKey × Comparison)) (file : File) :
    ∀ (group : List File) (cs : List Comparison),
      compareFileAgainstGroup md5 sha256 cache file group = .ok cs →
      ∀ c ∈ cs, c.comp_type ≠ CompType.PATH_DUP := by
  intro group
  induction group with
  | nil =>
    intro cs h c hc
    unfold compareFileAgainstGroup at h
    simp only [Except.ok.injEq] at h
    subst h
    cases hc
  | cons other rest ih =>
    intro cs h c hc
    unfold compareFileAgainstGroup at h
    split at h
    · split at h
      · simp at h
      · rename_i heq
        cases hrest : compareFileAgainstGroup md5 sha256 cache file rest with
        | error e =>
          rw [hrest] at h
          simp [Except.map] at h
        | ok cs0 =>
          rw [hrest] at h
          simp only [Except.map, Except.ok.injEq] at h
          subst h
          rcases List.mem_cons.mp hc with hceq | hmem
          · subst hceq
            exact compare_to_comp_type md5 sha256 file other _ _ _ heq
          · exact ih cs0 hrest c hmem
      · exact ih cs h c hc
    · exact ih cs h c hc

/-! Corollaries of the fold lemmas, phrased on `addComparisons` itself. -/

theorem addComparisons_cache_mono (m : ComparisonManager) (cs : List Comparison)
    (k : CacheKey) (h : cacheHasKey m.comparison_cache k = true) :
    cacheHasKey (addComparisons m cs).1.comparison_cache k = true :=
  (addComparisons_foldl_cache cs (m, false)).1 k h

theorem addComparisons_cache_self (m : ComparisonManager) (cs : List Comparison)
    (c : Comparison) (hc : c ∈ cs) :
    cacheHasKey (addComparisons m cs).1.comparison_cache (pairKey c) = true :=
  (addComparisons_foldl_cache cs (m, false)).2 c hc

theorem addComparisons_comps_mono (m : ComparisonManager) (cs : List Comparison)
    (t : CompType) (x : Comparison) (hx : x ∈ (m.buckets t).comps) :
    x ∈ ((addComparisons m cs).1.buckets t).comps :=
  addComparisons_foldl_comps_mono cs (m, false) t x hx

theorem addComparisons_comps_self (m : ComparisonManager) (cs : List Comparison)
    (c : Comparison) (hc : c ∈ cs) (hne : c.comp_type ≠ CompType.UNIQUE) :
    c ∈ ((addComparisons m cs).1.buckets c.comp_type).comps :=
  addComparisons_foldl_comps_self cs (m, false) c hc hne

theorem addComparisons_comps_ne (m : ComparisonManager) (cs : List Comparison)
    (t : CompType) (h : ∀ c ∈ cs, c.comp_type ≠ t) :
    ((addComparisons m cs).1.buckets t).comps = (m.buckets t).comps :=
  addComparisons_foldl_comps_ne cs (m, false) t h

theorem addComparisons_unique_comps (m : ComparisonManager) (cs : List Comparison) :
    ((addComparisons m cs).1.buckets CompType.UNIQUE).comps
      = (m.buckets CompType.UNIQUE).comps :=
  addComparisons_foldl_unique_comps cs (m, false)

theorem addComparisons_files (m : ComparisonManager) (cs : List Comparison) (t : CompType) :
    ((addComparisons m cs).1.buckets t).files = (m.buckets t).files :=
  addComparisons_foldl_files cs (m, false) t

theorem addComparisons_flag (m : ComparisonManager) (cs : List Comparison) :
    (addComparisons m cs).2 = cs.any (fun c => !(c.comp_type == CompType.UNIQUE)) := by
  rw [show addComparisons m cs = cs.foldl addComparisonStep (m, false) from rfl,
    addComparisons_foldl_flag cs (m, false)]
  simp

/-! Concrete runs of the classification loop. -/

/-- Failing input for the pair cache: two descriptors (`exX`, `exY`)
sharing both name and size, so their pair is met in both the name group
and the size group. -/
def exIx3 : DirIndex :=
  ⟨[exX, exY], fun n => if n == "a" then [exX, exY] else [],
    fun s => if s == 1 then [exX, exY] else []⟩

/-- C3: the pair-cache lookup of `_compare_file_against_group` uses the key
`(self, other_file)` — the manager object — so it never hits: on two files
sharing both name and size, the single unordered pair is recompared and
filed four times into the NAME_DUP bucket (twice per orientation) instead
of at most once; the cache does hold the pair under its stored key while
the key actually looked up is absent. -/
theorem pair_cache_never_hit :
    (addDirIndex exMd5 exSha initManager exIx3).map
      (fun m => ((m.buckets CompType.NAME_DUP).comps.length, m.comparison_cache.length,
        cacheHasKey m.comparison_cache (Entity.file exX.id, Entity.file exY.id),
        cacheHasKey m.comparison_cache (Entity.manager, Entity.file exY.id)))
      = Except.ok (4, 2, true, false) := by
  rfl

/-- Descriptors sharing only their size: their comparison outcome has
category UNIQUE. -/
def exA : File := ⟨10, "a", "d1", 1, [1], none, none⟩

/-- Partner of `exA`: same size, different name, folder and content. -/
def exB : File := ⟨11, "b", "d2", 1, [2], none, none⟩

/-- Index containing exactly `exA` and `exB`. -/
def exIx7 : DirIndex :=
  ⟨[exA, exB], fun n => if n == "a" then [exA] else if n == "b" then [exB] else [],
    fun s => if s == 1 then [exA, exB] else []⟩

/-- Counterexample to C7 as stated: on two files sharing only their size,
non-empty outcomes are produced (both sit in the pair cache with category
UNIQUE) yet the UNIQUE bucket's outcome list stays empty — a produced
outcome is not filed into its category's bucket. -/
theorem unique_outcome_not_filed :
    (addDirIndex exMd5 exSha initManager exIx7).map
      (fun m => (m.comparison_cache.map (fun e => e.2.comp_type),
        (m.buckets CompType.UNIQUE).comps.length))
      = Except.ok ([CompType.UNIQUE, CompType.UNIQUE], 0) := by
  rfl

/-- C7 (amended): during classification of a file against its name group
and size group, every produced outcome is inserted into the pair cache,
and every produced outcome whose category is not UNIQUE is filed into its
category's bucket; UNIQUE-categorised outcomes are cached but never filed
(the UNIQUE bucket's outcome list is unchanged); and when every produced
outcome is UNIQUE-categorised (in particular when none is produced) the
file itself is filed under UNIQUE while no other bucket's file list
changes. -/
theorem classification_records_outcomes (md5 sha256 : List Nat → Nat)
    (dirIx : DirIndex) (m m' : ComparisonManager) (f : File)
    (ncs scs : List Comparison)
    (hn : compareFileAgainstGroup md5 sha256 m.comparison_cache f
      (dirIx.name_index f.name) = .ok ncs)
    (hs : compareFileAgainstGroup md5 sha256
      (addComparisons m ncs).1.comparison_cache f (dirIx.size_index f.size) = .ok scs)
    (hp : processFile md5 sha256 dirIx m f = .ok m') :
    (∀ c ∈ ncs ++ scs, cacheHasKey m'.comparison_cache (pairKey c) = true) ∧
    (∀ c ∈ ncs ++ scs, c.comp_type ≠ CompType.UNIQUE →
      c ∈ (m'.buckets c.comp_type).comps) ∧
    ((m'.buckets CompType.UNIQUE).comps = (m.buckets CompType.UNIQUE).comps) ∧
    ((∀ c ∈ ncs ++ scs, c.comp_type = CompType.UNIQUE) →
      f ∈ (m'.buckets CompType.UNIQUE).files ∧
      ∀ t, t ≠ CompType.UNIQUE → (m'.buckets t).files = (m.buckets t).files) := by
  have h1 : ∀ c ∈ ncs ++ scs,
      cacheHasKey (addComparisons (addComparisons m ncs).1 scs).1.comparison_cache
        (pairKey c) = true := by
    intro c hc
    rcases List.mem_append.mp hc with h | h
    · exact addComparisons_cache_mono _ scs _ (addComparisons_cache_self m ncs c h)
    · exact addComparisons_cache_self _ scs c h
  have h2 : ∀ c ∈ ncs ++ scs, c.comp_type ≠ CompType.UNIQUE →
      c ∈ ((addComparisons (addComparisons m ncs).1 scs).1.buckets c.comp_type).comps := by
    intro c hc hne
    rcases List.mem_append.mp hc with h | h
    · exact addComparisons_comps_mono _ scs _ c (addComparisons_comps_self m ncs c h hne)
    · exact addComparisons_comps_self _ scs c h hne
  have h3 : ((addComparisons (addComparisons m ncs).1 scs).1.buckets CompType.UNIQUE).comps
      = (m.buckets CompType.UNIQUE).comps := by
    rw [addComparisons_unique_comps, addComparisons_unique_comps]
  have h5 : ∀ t, ((addComparisons (addComparisons m ncs).1 scs).1.buckets t).files
      = (m.buckets t).files := by
    intro t
    rw [addComparisons_files, addComparisons_files]
  unfold processFile at hp
  simp only [hn] at hp
  simp only [hs] at hp
  split at hp
  · rename_i hcond
    rw [Except.ok.injEq] at hp
    subst hp
    refine ⟨?_, ?_, ?_, ?_⟩
    · intro c hc
      rw [addFile_cache]
      exact h1 c hc
    · intro c hc hne
      rw [addFile_comps]
      exact h2 c hc hne
    · rw [addFile_comps]
      exact h3
    · intro hall
      refine ⟨?_, ?_⟩
      · rw [addFile_files_unique]
        exact List.mem_append_right _ (List.mem_singleton.mpr rfl)
      · intro t ht
        rw [addFile_files_ne _ _ _ ht]
        exact h5 t
  · rename_i hcond
    rw [Except.ok.injEq] at hp
    subst hp
    refine ⟨h1, h2, h3, ?_⟩
    intro hall
    exfalso
    apply hcond
    refine ⟨?_, ?_⟩
    · rw [addComparisons_flag, List.any_eq_false]
      intro c hc
      simp [hall c (List.mem_append_left _ hc)]
    · rw [addComparisons_flag, List.any_eq_false]
      intro c hc
      simp [hall c (List.mem_append_right _ hc)]

/-- The manager state after running classification on `exIx7`. -/
def exM7 : ComparisonManager :=
  match processFile exMd5 exSha exIx7 initManager exA with
  | .ok m => m
  | .error _ => initManager

/-- Witness: on the concrete run where `exA` produces only a
UNIQUE-categorised outcome, the file is filed under UNIQUE. -/
theorem classification_records_outcomes_witness :
    exA ∈ (exM7.buckets CompType.UNIQUE).files := by
  have h := (classification_records_outcomes exMd5 exSha exIx7 initManager exM7 exA []
    [⟨⟨10, "a", "d1", 1, [1], some 1, none⟩, ⟨11, "b", "d2", 1, [2], some 2, none⟩,
      CompType.UNIQUE⟩] rfl rfl rfl).2.2.2
  exact (h (by decide)).1

/-! Preservation of the PATH_DUP bucket. -/

theorem processFile_pathdup (md5 sha256 : List Nat → Nat) (dirIx : DirIndex)
    (m m' : ComparisonManager) (f : File)
    (hp : processFile md5 sha256 dirIx m f = .ok m') :
    (m'.buckets CompType.PATH_DUP).comps = (m.buckets CompType.PATH_DUP).comps ∧
    (m'.buckets CompType.PATH_DUP).files = (m.buckets CompType.PATH_DUP).files := by
  unfold processFile at hp
  cases hn : compareFileAgainstGroup md5 sha256 m.comparison_cache f
      (dirIx.name_index f.name) with
  | error e =>
    simp only [hn] at hp
    exact Except.noConfusion hp
  | ok ncs =>
    simp only [hn] at hp
    cases hs : compareFileAgainstGroup md5 sha256
        (addComparisons m ncs).1.comparison_cache f (dirIx.size_index f.size) with
    | error e =>
      simp only [hs] at hp
      exact Except.noConfusion hp
    | ok scs =>
      simp only [hs] at hp
      have hnp := compareFileAgainstGroup_no_pathdup md5 sha256 m.comparison_cache f
        (dirIx.name_index f.name) ncs hn
      have hsp := compareFileAgainstGroup_no_pathdup md5 sha256
        (addComparisons m ncs).1.comparison_cache f (dirIx.size_index f.size) scs hs
      have hc1 := addComparisons_comps_ne m ncs CompType.PATH_DUP hnp
      have hc2 := addComparisons_comps_ne (addComparisons m ncs).1 scs CompType.PATH_DUP hsp
      have hpd : CompType.PATH_DUP ≠ CompType.UNIQUE := by decide
      split at hp <;> rw [Except.ok.injEq] at hp <;> subst hp
      · rw [addFile_comps, addFile_files_ne _ _ _ hpd, hc2, hc1,
          addComparisons_files, addComparisons_files]
        exact ⟨rfl, rfl⟩
      · rw [hc2, hc1, addComparisons_files, addComparisons_files]
        exact ⟨rfl, rfl⟩

theorem addDirIndexAux_pathdup (md5 sha256 : List Nat → Nat) (dirIx : DirIndex) :
    ∀ (fs : List File) (m m' : ComparisonManager),
      addDirIndexAux md5 sha256 dirIx m fs = .ok m' →
      (m'.buckets CompType.PATH_DUP).comps = (m.buckets CompType.PATH_DUP).comps ∧
      (m'.buckets CompType.PATH_DUP).files = (m.buckets CompType.PATH_DUP).files := by
  intro fs
  induction fs with
  | nil =>
    intro m m' h
    unfold addDirIndexAux at h
    rw [Except.ok.injEq] at h
    subst h
    exact ⟨rfl, rfl⟩
  | cons f fs ih =>
    intro m m' h
    unfold addDirIndexAux at h
    cases hp : processFile md5 sha256 dirIx m f with
    | error e =>
      simp only [hp] at h
      exact Except.noConfusion h
    | ok m1 =>
      simp only [hp] at h
      obtain ⟨e1, e2⟩ := ih m1 m' h
      obtain ⟨p1, p2⟩ := processFile_pathdup md5 sha256 dirIx m m1 f hp
      exact ⟨e1.trans p1, e2.trans p2⟩

/-- Membership of each category's resolution entry in `resolve_all`. -/
theorem resolve_all_mem (chooser : List File → List File)
    (bs : CompType → List (List File)) (t : CompType) (ht : t ∈ compTypeList) :
    (if t = CompType.MATCH then (t, resolve_matches (bs t))
     else if t = CompType.UNIQUE then (t, (bs t, ([] : List Event)))
     else (t, resolve_dups chooser t (bs t))) ∈ resolve_all chooser bs :=
  List.mem_map_of_mem _ ht

/-- C10: classification never files a PATH_DUP outcome, so the PATH_DUP
bucket stays empty through any run started on an empty PATH_DUP bucket;
`resolve_all` does run the generic duplicate resolution for PATH_DUP, but
on the empty bucket that pass displays nothing and prompts for nothing. -/
theorem path_dup_suppressed (md5 sha256 : List Nat → Nat)
    (mgr m' : ComparisonManager) (dirIx : DirIndex)
    (hrun : addDirIndex md5 sha256 mgr dirIx = .ok m')
    (hinit : mgr.buckets CompType.PATH_DUP = Bucket.empty) :
    m'.buckets CompType.PATH_DUP = Bucket.empty ∧
    (∀ (chooser : List File → List File) (bs : CompType → List (List File)),
      (CompType.PATH_DUP,
        resolve_dups chooser CompType.PATH_DUP (bs CompType.PATH_DUP))
      ∈ resolve_all chooser bs) ∧
    (∀ chooser : List File → List File,
      resolve_dups chooser CompType.PATH_DUP Bucket.empty.groups = ([], [])) := by
  obtain ⟨h1, h2⟩ := addDirIndexAux_pathdup md5 sha256 dirIx dirIx.file_list mgr m' hrun
  refine ⟨?_, ?_, ?_⟩
  · have hsplit : m'.buckets CompType.PATH_DUP =
        ⟨(m'.buckets CompType.PATH_DUP).comps, (m'.buckets CompType.PATH_DUP).files⟩ := rfl
    rw [hsplit, h1, h2, hinit]
  · intro chooser bs
    exact resolve_all_mem chooser bs CompType.PATH_DUP (by simp [compTypeList])
  · intro chooser
    rfl

/-- The manager state after running classification on `exIx3`. -/
def exM3 : ComparisonManager :=
  match addDirIndex exMd5 exSha initManager exIx3 with
  | .ok m => m
  | .error _ => initManager

/-- Witness: on a concrete run the PATH_DUP bucket comes out empty. -/
theorem path_dup_suppressed_witness :
    exM3.buckets CompType.PATH_DUP = Bucket.empty :=
  (path_dup_suppressed exMd5 exSha initManager exM3 exIx3 rfl rfl).1

/-! Resolution claims. -/

/-- Counterexample to C4 as stated: with an empty kept-selection on the
concrete group [exX, exY], `resolve_dups` removes the FIRST member and
retains the second — not the other way round. -/
theorem resolve_dups_empty_selection_cex :
    (resolve_dups (fun _ => ([] : List File)) CompType.NAME_DUP [[exX, exY]]).1
      = [[exY]] ∧ exY ≠ exX := by
  refine ⟨?_, by decide⟩
  rfl

/-- C4 (amended): in generic duplicate resolution, a group whose
kept-selection is empty has its first member removed from the index, and
every member with a different identity is retained. -/
theorem resolve_dups_empty_selection (chooser : List File → List File) (t : CompType)
    (g : List File) (hc : chooser g = []) :
    (resolve_dups chooser t [g]).1 = [removeFile g (headFile g)] ∧
    (∀ x ∈ removeFile g (headFile g), x.id ≠ (headFile g).id) ∧
    (∀ x ∈ g, x.id ≠ (headFile g).id → x ∈ removeFile g (headFile g)) := by
  refine ⟨?_, ?_, ?_⟩
  · simp [resolve_dups, resolveDupStep, hc]
  · intro x hx
    have h := List.mem_filter.mp hx
    simpa using h.2
  · intro x hx hne
    exact List.mem_filter.mpr ⟨hx, by simpa using hne⟩

/-- Witness: the amended empty-selection behaviour on a concrete group. -/
theorem resolve_dups_empty_selection_witness :
    (resolve_dups (fun _ => ([] : List File)) CompType.CONTENT_DUP [[exX, exW]]).1
      = [removeFile [exX, exW] (headFile [exX, exW])] :=
  (resolve_dups_empty_selection (fun _ => []) CompType.CONTENT_DUP [exX, exW] rfl).1

/-- Keeping only the first member of a group with pairwise distinct member
identities leaves exactly that member. -/
theorem setComparisons_head (g : List File) (hne : g ≠ [])
    (hnd : (g.map File.id).Nodup) : setComparisons g [headFile g] = [headFile g] := by
  cases g with
  | nil => exact absurd rfl hne
  | cons x xs =>
    have hx : headFile (x :: xs) = x := rfl
    rw [hx]
    unfold setComparisons
    rw [List.filter_cons]
    have hpx : ([x].any (fun k => k.id == x.id)) = true := by simp
    rw [if_pos hpx]
    have hxs : xs.filter (fun y => [x].any (fun k => k.id == y.id)) = [] := by
      rw [List.filter_eq_nil_iff]
      intro y hy
      have hid : x.id ≠ y.id := by
        rw [List.map_cons, List.nodup_cons] at hnd
        intro hcontra
        exact hnd.1 (by rw [hcontra]; exact List.mem_map_of_mem File.id hy)
      simp [hid]
    rw [hxs]

/-- C6: `resolve_matches` makes no interactive call (its event log is
empty), `resolve_all` handles the MATCH category through it, and every
group with pairwise distinct member identities is reduced to exactly its
first member, the others being removed. -/
theorem resolve_matches_keeps_first (groups : List (List File)) :
    (resolve_matches groups).2 = ([] : List Event) ∧
    (∀ (chooser : List File → List File) (bs : CompType → List (List File)),
      (CompType.MATCH, resolve_matches (bs CompType.MATCH)) ∈ resolve_all chooser bs) ∧
    ∀ (i : Nat) (g : List File), groups[i]? = some g → g ≠ [] → (g.map File.id).Nodup →
      (resolve_matches groups).1[i]? = some [headFile g] := by
  refine ⟨rfl, ?_, ?_⟩
  · intro chooser bs
    exact resolve_all_mem chooser bs CompType.MATCH (by simp [compTypeList])
  · intro i g hg hne hnd
    unfold resolve_matches
    dsimp only
    rw [List.getElem?_map, hg]
    dsimp only [Option.map]
    rw [setComparisons_head g hne hnd]

/-- Witness: `resolve_matches` on a concrete two-member group keeps exactly
the first member. -/
theorem resolve_matches_keeps_first_witness :
    (resolve_matches [[exX, exY]]).1[0]? = some [exX] :=
  (resolve_matches_keeps_first [[exX, exY]]).2.2 0 [exX, exY] rfl
    (by decide) (by decide)

/-! Fallible model for I/O during fingerprinting.  `open` raises IOError
exactly when the file is unreadable, modelled by the `readable` predicate;
the sources contain no handler, so the failure propagates. -/

/-- Failure modes of the fallible model: an uncaught IOError from `open`
(carrying the failing descriptor's identity) and the two `ValueError`
exits of `compare_to`. -/
inductive RunErr where
  | io : Nat → RunErr
  | selfCompare : RunErr
  | noCompType : RunErr
deriving DecidableEq, Repr

/-- `File.__create_quick_hash` with the `open` call made fallible. -/
def createQuickHashE (md5 : List Nat → Nat) (readable : Nat → Bool) (f : File) :
    Except RunErr Nat :=
  if readable f.id then .ok (createQuickHash md5 f) else .error (RunErr.io f.id)

/-- `File.__create_full_hash` with the `open` call made fallible. -/
def createFullHashE (sha256 : List Nat → Nat) (readable : Nat → Bool) (f : File) :
    Except RunErr Nat :=
  if readable f.id then .ok (createFullHash sha256 f) else .error (RunErr.io f.id)

/-- The memoizing quick-hash fill in the fallible model. -/
def fillQuickE (md5 : List Nat → Nat) (readable : Nat → Bool) (f : File) :
    Except RunErr File :=
  if f.quick_hash.isNone then
    (createQuickHashE md5 readable f).map (fun h => { f with quick_hash := some h })
  else .ok f

/-- The memoizing full-hash fill in the fallible model. -/
def fillFullE (sha256 : List Nat → Nat) (readable : Nat → Bool) (f : File) :
    Except RunErr File :=
  if f.full_hash.isNone then
    (createFullHashE sha256 readable f).map (fun h => { f with full_hash := some h })
  else .ok f

/-- `File.compare_content` in the fallible model: no handler, the IOError
propagates out. -/
def compare_contentE (md5 sha256 : List Nat → Nat) (readable : Nat → Bool)
    (f g : File) : Except RunErr (Bool × File × File) :=
  if f.size ≠ g.size then .ok (false, f, g)
  else do
    let f1 ← fillQuickE md5 readable f
    let g1 ← fillQuickE md5 readable g
    if f1.quick_hash ≠ g1.quick_hash then .ok (false, f1, g1)
    else do
      let f2 ← fillFullE sha256 readable f1
      let g2 ← fillFullE sha256 readable g1
      if f2.full_hash ≠ g2.full_hash then .ok (false, f2, g2)
      else .ok (f2.full_hash == g2.full_hash, f2, g2)

/-- `File.compare_to` in the fallible model. -/
def compare_toE (md5 sha256 : List Nat → Nat) (readable : Nat → Bool)
    (self other : File) : Except RunErr (Option Comparison × File × File) :=
  if self.id = other.id then .error .selfCompare
  else
    let same_name := sameName self other
    let same_path := samePath self other
    match compare_contentE md5 sha256 readable self other with
    | .error e => .error e
    | .ok r =>
      match findCompType same_path same_name r.1 with
      | some ct =>
        if ct = CompType.PATH_DUP then .ok (none, r.2.1, r.2.2)
        else .ok (some ⟨r.2.1, r.2.2, ct⟩, r.2.1, r.2.2)
      | none => .error .noCompType

/-- `ComparisonManager._compare_file_against_group` in the fallible model. -/
def compareFileAgainstGroupE (md5 sha256 : List Nat → Nat) (readable : Nat → Bool)
    (cache : List (CacheKey × Comparison)) (file : File) :
    List File → Except RunErr (List Comparison)
  | [] => .ok []
  | other :: rest =>
    if file.id ≠ other.id ∧
        cacheGet cache (Entity.manager, Entity.file other.id) = none ∧
        cacheGet cache (Entity.manager, Entity.file other.id) = none then
      match compare_toE md5 sha256 readable file other with
      | .error e => .error e
      | .ok (some c, _, _) =>
        (compareFileAgainstGroupE md5 sha256 readable cache file rest).map
          (fun cs => c :: cs)
      | .ok (none, _, _) => compareFileAgainstGroupE md5 sha256 readable cache file rest
    else compareFileAgainstGroupE md5 sha256 readable cache file rest

/-- Unreadable descriptor. -/
def exU : File := ⟨20, "u", "d", 1, [1], none, none⟩

/-- Readable partner of `exU` with equal size. -/
def exV : File := ⟨21, "u", "d", 1, [1], none, none⟩

/-- A further group member that never gets compared once the error fires. -/
def exT : File := ⟨22, "u", "d", 1, [1], none, none⟩

/-- Readability map: only descriptor 20 is unreadable. -/
def exReadable : Nat → Bool := fun i => !(i == 20)

/-- Counterexample to C5 as stated: with `exU` unreadable, the group pass
does not skip the failing pair and continue with the remaining member — it
aborts with the uncaught IOError, producing no comparisons at all. -/
theorem io_error_aborts :
    compareFileAgainstGroupE exMd5 exSha exReadable [] exU [exV, exT]
      = Except.error (RunErr.io 20) := by
  rfl

/-- C5 (amended): an I/O error raised while computing a quick fingerprint
is not caught anywhere in the comparison chain: it propagates out of
`compare_content`, out of `compare_to`, and out of the group pass, which
aborts instead of skipping the pair and continuing. -/
theorem io_error_propagates (md5 sha256 : List Nat → Nat) (readable : Nat → Bool)
    (cache : List (CacheKey × Comparison)) (f g : File) (rest : List File)
    (hid : f.id ≠ g.id) (hsz : f.size = g.size) (hq : f.quick_hash = none)
    (hr : readable f.id = false)
    (hcache : cacheGet cache (Entity.manager, Entity.file g.id) = none) :
    compare_contentE md5 sha256 readable f g = .error (RunErr.io f.id) ∧
    compare_toE md5 sha256 readable f g = .error (RunErr.io f.id) ∧
    compareFileAgainstGroupE md5 sha256 readable cache f (g :: rest)
      = .error (RunErr.io f.id) := by
  have hfq : fillQuickE md5 readable f = .error (RunErr.io f.id) := by
    unfold fillQuickE
    rw [if_pos (by rw [hq]; rfl)]
    unfold createQuickHashE
    rw [if_neg (by simp [hr])]
    rfl
  have hcc : compare_contentE md5 sha256 readable f g = .error (RunErr.io f.id) := by
    unfold compare_contentE
    rw [if_neg (by simp [hsz]), hfq]
    rfl
  have hct : compare_toE md5 sha256 readable f g = .error (RunErr.io f.id) := by
    unfold compare_toE
    rw [if_neg hid, hcc]
  have hcg : compareFileAgainstGroupE md5 sha256 readable cache f (g :: rest)
      = .error (RunErr.io f.id) := by
    unfold compareFileAgainstGroupE
    rw [if_pos ⟨hid, hcache, hcache⟩, hct]
  exact ⟨hcc, hct, hcg⟩

/-- Witness: the error propagation at a concrete unreadable file. -/
theorem io_error_propagates_witness :
    compareFileAgainstGroupE exMd5 exSha exReadable [] exU [exV]
      = Except.error (RunErr.io 20) :=
  (io_error_propagates exMd5 exSha exReadable [] exU exV [] (by decide) rfl rfl
    rfl rfl).2.2

end DirMerge
